import Mathlib

/-!
Verification of the Xiangqi (Chinese Chess) rules engine.

This file is a shallow embedding of the repository's rules engine
(`src/js/pieces.js`, `src/js/game.js`, and the load logic in
`src/js/main.js`) together with theorems settling the specification's
claims about it.

Conventions of the embedding:
* A board is a list of rows, each row a list of cells (`Option Piece`),
  mirroring the JS array-of-arrays.  Coordinates are integers, as in the
  JS source where `row + dr` may leave the board; reads through `bget`
  return `none` for an absent cell, matching the guarded accesses of the
  source (the one unguarded access reachable with an out-of-range index
  is modelled explicitly, see `Game.makeMove`).  The source's full-board
  scans index `board[r]` for every `r < 10`, so the embedding agrees
  with the source on every board carrying its 10 rows — the shape every
  board of the app has (`INITIAL_BOARD`, preserved by `cloneBoard` and
  `applyMove`); a JS board with fewer rows would throw in those scans.
* JS objects keyed by side (`consecutiveChecks`, `checkHistory`) become
  `SidePair`.
* The check-pattern key `` `${piece.type}_${row}_${col}` `` is modelled as
  the corresponding Lean string.
* Mutation is modelled by explicit state passing: `makeMove` returns the
  boolean result together with the successor state; the one statement of
  the source that can throw (`this.board[fromRow][fromCol]` with a row
  index that does not exist on the board) is modelled by `Except`.
-/

/-- `SIDE` from constants.js. -/
inductive Side where
  | red
  | black
deriving DecidableEq, Repr

/-- `side === SIDE.RED ? SIDE.BLACK : SIDE.RED`, the opponent computation
used throughout game.js. -/
def Side.opp : Side → Side
  | .red => .black
  | .black => .red

/-- `PIECE` from constants.js. -/
inductive PieceType where
  | king
  | advisor
  | elephant
  | horse
  | chariot
  | cannon
  | soldier
deriving DecidableEq, Repr

/-- The string value of each `PIECE` constant (constants.js). -/
def PieceType.key : PieceType → String
  | .king => "king"
  | .advisor => "advisor"
  | .elephant => "elephant"
  | .horse => "horse"
  | .chariot => "chariot"
  | .cannon => "cannon"
  | .soldier => "soldier"

/-- A piece `{ type, side }` (constants.js). -/
structure Piece where
  type : PieceType
  side : Side
deriving DecidableEq, Repr

/-- A board cell destination `{ row, col }` as pushed by the move
generators in pieces.js. -/
structure Pos where
  row : Int
  col : Int
deriving DecidableEq, Repr

/-- A move `{ fromRow, fromCol, toRow, toCol }` as pushed by
`getAllLegalMoves` / `getAllMovesForBoard`. -/
structure Move where
  fromRow : Int
  fromCol : Int
  toRow : Int
  toCol : Int
deriving DecidableEq, Repr

/-- An entry `{ pieceKey, toRow, toCol }` of `checkHistory` (game.js). -/
structure CheckRec where
  pieceKey : String
  toRow : Int
  toCol : Int
deriving DecidableEq, Repr

/-- A JS object keyed by the two sides, such as `consecutiveChecks` and
`checkHistory`. -/
structure SidePair (α : Type) where
  red : α
  black : α
deriving DecidableEq, Repr

/-- Read the entry of one side. -/
def SidePair.get {α : Type} (p : SidePair α) : Side → α
  | .red => p.red
  | .black => p.black

/-- Write the entry of one side (the JS `obj[side] = f(obj[side])`). -/
def SidePair.update {α : Type} (p : SidePair α) (s : Side) (f : α → α) :
    SidePair α :=
  match s with
  | .red => { p with red := f p.red }
  | .black => { p with black := f p.black }

/-- The board: 10 rows of 9 cells in the source; the type itself is the
raw JS array-of-arrays shape. -/
abbrev Board := List (List (Option Piece))

/-- `board[r][c]` wherever the source has first established the indices
are on the board: `none` both for an empty cell and for an absent one. -/
def bget (b : Board) (r c : Int) : Option Piece :=
  if 0 ≤ r ∧ 0 ≤ c then ((b[r.toNat]?).bind fun row => row[c.toNat]?).join
  else none

/-- `board[r][c] = v` for an existing cell, a no-op otherwise (the source
only ever writes cells whose indices were produced in bounds). -/
def bset (b : Board) (r c : Int) (v : Option Piece) : Board :=
  if 0 ≤ r ∧ 0 ≤ c then
    match b[r.toNat]? with
    | none => b
    | some row => b.set r.toNat (row.set c.toNat v)
  else b

/-- `inBounds` (pieces.js): `row >= 0 && row < ROWS && col >= 0 && col < COLS`
with `ROWS = 10`, `COLS = 9`. -/
def inBounds (row col : Int) : Bool :=
  decide (0 ≤ row ∧ row < 10 ∧ 0 ≤ col ∧ col < 9)

/-- `inPalace` (pieces.js). -/
def inPalace (row col : Int) (side : Side) : Bool :=
  if col < 3 ∨ 5 < col then false
  else
    match side with
    | .red => decide (7 ≤ row ∧ row ≤ 9)
    | .black => decide (0 ≤ row ∧ row ≤ 2)

/-- `hasCrossedRiver` (pieces.js). -/
def hasCrossedRiver (row : Int) (side : Side) : Bool :=
  match side with
  | .red => decide (row ≤ 4)
  | .black => decide (5 ≤ row)

/-- Keep a destination if it is empty or holds an enemy piece: the
`!target || target.side !== side` test repeated by every generator. -/
def captureOk (b : Board) (nr nc : Int) (side : Side) : Bool :=
  match bget b nr nc with
  | none => true
  | some t => t.side ≠ side

/-- All cells of the column `col` with `lo < row < hi` are empty:
the `for (let r = lo + 1; r < hi; r++)` emptiness scans of pieces.js and
game.js. -/
def colClearBetween (b : Board) (col lo hi : Int) : Bool :=
  (List.range (hi - lo - 1).toNat).all fun (i : Nat) =>
    (bget b (lo + 1 + (i : Int)) col).isNone

/-- The first palace row scanned for the opposing king by the
flying-general part of `getKingMoves`:
`const startR = oppSide === SIDE.RED ? 7 : 0` (pieces.js); the loop runs
to `endR = startR + 2`, i.e. three rows. -/
def flyStartRow : Side → Int
  | .red => 7
  | .black => 0

/-- `getKingMoves` (pieces.js): one orthogonal palace step, plus the
flying-general capture of the opposing king on an open column. -/
def getKingMoves (b : Board) (row col : Int) (side : Side) : List Pos :=
  let dirs : List (Int × Int) := [(0, 1), (0, -1), (1, 0), (-1, 0)]
  let step := dirs.filterMap fun d =>
    let nr := row + d.1
    let nc := col + d.2
    if inPalace nr nc side ∧ captureOk b nr nc side then some ⟨nr, nc⟩
    else none
  let oppSide := side.opp
  let fly := (List.range 3).filterMap fun (i : Nat) =>
    let r := flyStartRow oppSide + (i : Int)
    match bget b r col with
    | some p =>
      if p.type = PieceType.king ∧ p.side = oppSide ∧
          colClearBetween b col (min row r) (max row r) then
        some (⟨r, col⟩ : Pos)
      else none
    | none => none
  step ++ fly

/-- `getAdvisorMoves` (pieces.js). -/
def getAdvisorMoves (b : Board) (row col : Int) (side : Side) : List Pos :=
  let dirs : List (Int × Int) := [(1, 1), (1, -1), (-1, 1), (-1, -1)]
  dirs.filterMap fun d =>
    let nr := row + d.1
    let nc := col + d.2
    if inPalace nr nc side ∧ captureOk b nr nc side then some ⟨nr, nc⟩
    else none

/-- `getElephantMoves` (pieces.js): the direction and matching blocking
("eye") offsets, paired as in the source. -/
def getElephantMoves (b : Board) (row col : Int) (side : Side) : List Pos :=
  let pat : List ((Int × Int) × (Int × Int)) :=
    [((2, 2), (1, 1)), ((2, -2), (1, -1)), ((-2, 2), (-1, 1)),
     ((-2, -2), (-1, -1))]
  pat.filterMap fun p =>
    let nr := row + p.1.1
    let nc := col + p.1.2
    if inBounds nr nc ∧ ¬hasCrossedRiver nr side ∧
        (bget b (row + p.2.1) (col + p.2.2)).isNone ∧
        captureOk b nr nc side then
      some ⟨nr, nc⟩
    else none

/-- `getHorseMoves` (pieces.js): each blocking "leg" with its two L-move
offsets. -/
def getHorseMoves (b : Board) (row col : Int) (side : Side) : List Pos :=
  let pat : List ((Int × Int) × List (Int × Int)) :=
    [((-1, 0), [(-2, -1), (-2, 1)]),
     ((1, 0), [(2, -1), (2, 1)]),
     ((0, -1), [(-1, -2), (1, -2)]),
     ((0, 1), [(-1, 2), (1, 2)])]
  pat.flatMap fun p =>
    let br := row + p.1.1
    let bc := col + p.1.2
    if inBounds br bc ∧ (bget b br bc).isNone then
      p.2.filterMap fun d =>
        let nr := row + d.1
        let nc := col + d.2
        if inBounds nr nc ∧ captureOk b nr nc side then some ⟨nr, nc⟩
        else none
    else []

/-- One sliding ray of `getChariotMoves` (pieces.js): step while in
bounds, stopping at the first occupied cell, which is kept when it holds
an enemy piece.  The fuel starts at 10 (see `getChariotMoves`): a ray
from an on-board cell leaves the 10×9 board after at most 9 steps, so
the fuel never runs out before the `inBounds` test fails. -/
def chariotRay (b : Board) (side : Side) (dr dc : Int) :
    Nat → Int → Int → List Pos
  | 0, _, _ => []
  | fuel + 1, nr, nc =>
    if inBounds nr nc then
      match bget b nr nc with
      | none => ⟨nr, nc⟩ :: chariotRay b side dr dc fuel (nr + dr) (nc + dc)
      | some t => if t.side ≠ side then [⟨nr, nc⟩] else []
    else []

/-- `getChariotMoves` (pieces.js). -/
def getChariotMoves (b : Board) (row col : Int) (side : Side) : List Pos :=
  let dirs : List (Int × Int) := [(0, 1), (0, -1), (1, 0), (-1, 0)]
  dirs.flatMap fun d => chariotRay b side d.1 d.2 10 (row + d.1) (col + d.2)

/-- One sliding ray of `getCannonMoves` (pieces.js), with the `jumped`
platform flag; fuel as in `chariotRay`. -/
def cannonRay (b : Board) (side : Side) (dr dc : Int) :
    Nat → Bool → Int → Int → List Pos
  | 0, _, _, _ => []
  | fuel + 1, jumped, nr, nc =>
    if inBounds nr nc then
      match bget b nr nc, jumped with
      | none, false =>
        ⟨nr, nc⟩ :: cannonRay b side dr dc fuel false (nr + dr) (nc + dc)
      | some _, false => cannonRay b side dr dc fuel true (nr + dr) (nc + dc)
      | none, true => cannonRay b side dr dc fuel true (nr + dr) (nc + dc)
      | some t, true => if t.side ≠ side then [⟨nr, nc⟩] else []
    else []

/-- `getCannonMoves` (pieces.js). -/
def getCannonMoves (b : Board) (row col : Int) (side : Side) : List Pos :=
  let dirs : List (Int × Int) := [(0, 1), (0, -1), (1, 0), (-1, 0)]
  dirs.flatMap fun d =>
    cannonRay b side d.1 d.2 10 false (row + d.1) (col + d.2)

/-- `getSoldierMoves` (pieces.js). -/
def getSoldierMoves (b : Board) (row col : Int) (side : Side) : List Pos :=
  let forward : Int := match side with | .red => -1 | .black => 1
  let crossed := hasCrossedRiver row side
  let nr := row + forward
  let fwd : List Pos :=
    if inBounds nr col ∧ captureOk b nr col side then [⟨nr, col⟩] else []
  let sideways : List Pos :=
    if crossed then
      ([-1, 1] : List Int).filterMap fun dc =>
        let nc := col + dc
        if inBounds row nc ∧ captureOk b row nc side then
          some (⟨row, nc⟩ : Pos)
        else none
    else []
  fwd ++ sideways

/-- `getPieceMoves` (pieces.js): dispatch on the piece type at the
source cell. -/
def getPieceMoves (b : Board) (row col : Int) : List Pos :=
  match bget b row col with
  | none => []
  | some piece =>
    match piece.type with
    | .king => getKingMoves b row col piece.side
    | .advisor => getAdvisorMoves b row col piece.side
    | .elephant => getElephantMoves b row col piece.side
    | .horse => getHorseMoves b row col piece.side
    | .chariot => getChariotMoves b row col piece.side
    | .cannon => getCannonMoves b row col piece.side
    | .soldier => getSoldierMoves b row col piece.side

/-- The row-major cell enumeration `for r < ROWS: for c < COLS` shared by
the scanning loops of game.js. -/
def allCells : List (Int × Int) :=
  (List.range 10).flatMap fun (r : Nat) =>
    (List.range 9).map fun (c : Nat) => ((r : Int), (c : Int))

/-- `Game.findKing` (game.js): the first cell in row-major order holding
the side's king. -/
def findKing (b : Board) (side : Side) : Option Pos :=
  allCells.findSome? fun rc =>
    match bget b rc.1 rc.2 with
    | some p =>
      if p.type = PieceType.king ∧ p.side = side then some ⟨rc.1, rc.2⟩
      else none
    | none => none

/-- `Game.isFlyingGeneral` (game.js): the two kings face each other on
one open column. -/
def isFlyingGeneral (b : Board) : Bool :=
  match findKing b Side.red, findKing b Side.black with
  | some redKing, some blackKing =>
    if redKing.col ≠ blackKing.col then false
    else colClearBetween b redKing.col blackKing.row redKing.row
  | _, _ => false

/-- `Game.isInCheck` (game.js): an absent king counts as in check;
otherwise some opposing piece's pseudo-legal moves hit the king's cell. -/
def isInCheck (b : Board) (side : Side) : Bool :=
  match findKing b side with
  | none => true
  | some king =>
    allCells.any fun rc =>
      match bget b rc.1 rc.2 with
      | some p =>
        p.side = side.opp ∧
          (getPieceMoves b rc.1 rc.2).any fun m =>
            m.row = king.row ∧ m.col = king.col
      | none => false

/-- `Game.applyMove` (game.js): returns the mutated board and the
captured occupant of the destination. -/
def applyMove (b : Board) (fromRow fromCol toRow toCol : Int) :
    Board × Option Piece :=
  let captured := bget b toRow toCol
  let b1 := bset b toRow toCol (bget b fromRow fromCol)
  (bset b1 fromRow fromCol none, captured)

/-- The check-pattern key `` `${piece.type}_${row}_${col}` `` (game.js). -/
def mkPieceKey (t : PieceType) (row col : Int) : String :=
  t.key ++ "_" ++ toString row ++ "_" ++ toString col

/-- `loseReason` values of game.js: `'checkmate'` or `'perpetual-check'`. -/
inductive LoseReason where
  | checkmate
  | perpetualCheck
deriving DecidableEq, Repr

/-- One entry of `moveHistory` as pushed by `Game.makeMove` (game.js). -/
structure HistEntry where
  fromRow : Int
  fromCol : Int
  toRow : Int
  toCol : Int
  piece : Piece
  captured : Option Piece
  board : Board
  prevConsecutiveChecks : SidePair Nat
  prevCheckHistory : SidePair (List CheckRec)
deriving DecidableEq, Repr

/-- The game state of the `Game` class (game.js).  The UI-only fields
`selectedPiece` and `validMoves` are not part of the rules engine's
state (they are cleared on every load and never serialized) and are
omitted. -/
structure Game where
  board : Board
  currentTurn : Side
  lastMove : Option Move
  moveHistory : List HistEntry
  gameOver : Bool
  winner : Option Side
  loseReason : Option LoseReason
  inCheck : Bool
  consecutiveChecks : SidePair Nat
  checkHistory : SidePair (List CheckRec)
  checkLimitReached : Bool
deriving DecidableEq, Repr

/-- `INITIAL_BOARD` (constants.js). -/
def initialBoard : Board :=
  [[some ⟨.chariot, .black⟩, some ⟨.horse, .black⟩, some ⟨.elephant, .black⟩,
    some ⟨.advisor, .black⟩, some ⟨.king, .black⟩, some ⟨.advisor, .black⟩,
    some ⟨.elephant, .black⟩, some ⟨.horse, .black⟩, some ⟨.chariot, .black⟩],
   [none, none, none, none, none, none, none, none, none],
   [none, some ⟨.cannon, .black⟩, none, none, none, none, none,
    some ⟨.cannon, .black⟩, none],
   [some ⟨.soldier, .black⟩, none, some ⟨.soldier, .black⟩, none,
    some ⟨.soldier, .black⟩, none, some ⟨.soldier, .black⟩, none,
    some ⟨.soldier, .black⟩],
   [none, none, none, none, none, none, none, none, none],
   [none, none, none, none, none, none, none, none, none],
   [some ⟨.soldier, .red⟩, none, some ⟨.soldier, .red⟩, none,
    some ⟨.soldier, .red⟩, none, some ⟨.soldier, .red⟩, none,
    some ⟨.soldier, .red⟩],
   [none, some ⟨.cannon, .red⟩, none, none, none, none, none,
    some ⟨.cannon, .red⟩, none],
   [none, none, none, none, none, none, none, none, none],
   [some ⟨.chariot, .red⟩, some ⟨.horse, .red⟩, some ⟨.elephant, .red⟩,
    some ⟨.advisor, .red⟩, some ⟨.king, .red⟩, some ⟨.advisor, .red⟩,
    some ⟨.elephant, .red⟩, some ⟨.horse, .red⟩, some ⟨.chariot, .red⟩]]

/-- `Game.reset` (game.js), the state of a fresh game. -/
def Game.init : Game where
  board := initialBoard
  currentTurn := .red
  lastMove := none
  moveHistory := []
  gameOver := false
  winner := none
  loseReason := none
  inCheck := false
  consecutiveChecks := ⟨0, 0⟩
  checkHistory := ⟨[], []⟩
  checkLimitReached := false

/-- `Game.getLegalMoves` (game.js): filter the pseudo-legal moves,
rejecting self-check and flying-general results, and — once the side has
delivered three consecutive checks — rejecting checking moves that repeat
a recorded `{pieceKey, toRow, toCol}` pattern. -/
def Game.getLegalMoves (g : Game) (row col : Int) : List Pos :=
  match bget g.board row col with
  | none => []
  | some piece =>
    let pseudoMoves := getPieceMoves g.board row col
    let oppSide := piece.side.opp
    let checkHist := g.checkHistory.get piece.side
    let mustAvoidRepeat := decide (3 ≤ g.consecutiveChecks.get piece.side)
    pseudoMoves.filter fun move =>
      let testBoard := (applyMove g.board row col move.row move.col).1
      if isInCheck testBoard piece.side || isFlyingGeneral testBoard then
        false
      else if mustAvoidRepeat && isInCheck testBoard oppSide then
        let pieceKey := mkPieceKey piece.type row col
        let repeatCount := (checkHist.filter fun h =>
          h.pieceKey = pieceKey ∧ h.toRow = move.row ∧
            h.toCol = move.col).length
        decide (repeatCount < 1)
      else true

/-- `Game.getAllLegalMoves` (game.js). -/
def Game.getAllLegalMoves (g : Game) (side : Side) : List Move :=
  allCells.flatMap fun rc =>
    match bget g.board rc.1 rc.2 with
    | some p =>
      if p.side = side then
        (g.getLegalMoves rc.1 rc.2).map fun m => ⟨rc.1, rc.2, m.row, m.col⟩
      else []
    | none => []

/-- The terminal-state detection at the end of `Game.makeMove` (game.js
lines 214-225), run on the state `g1` after all the per-move updates:
the side to move (the new `currentTurn`) having zero legal moves ends
the game, the winner being the side that just moved, with the lose
reason decided by `checkLimitReached`. -/
def Game.finishMove (g1 : Game) : Game :=
  if 0 < (g1.getAllLegalMoves g1.currentTurn).length then g1
  else
    { g1 with
      gameOver := true, winner := some g1.currentTurn.opp,
      loseReason :=
        some (if g1.checkLimitReached then LoseReason.perpetualCheck
              else LoseReason.checkmate) }

/-- The success path of `Game.makeMove` (game.js lines 174-227): the
history push, board mutation, turn flip, check bookkeeping and then
`finishMove`, given the piece at the source. -/
def Game.execMove (g : Game) (piece : Piece) (fr fc tr tc : Int) : Game :=
  let captured := bget g.board tr tc
  let entry : HistEntry :=
    ⟨fr, fc, tr, tc, piece, captured, g.board, g.consecutiveChecks,
      g.checkHistory⟩
  let board1 := (applyMove g.board fr fc tr tc).1
  let newTurn := g.currentTurn.opp
  let chk := isInCheck board1 newTurn
  let cc :=
    if chk then g.consecutiveChecks.update piece.side (· + 1)
    else g.consecutiveChecks.update piece.side fun _ => 0
  let ch :=
    if chk then
      g.checkHistory.update piece.side
        (· ++ [⟨mkPieceKey piece.type fr fc, tr, tc⟩])
    else g.checkHistory.update piece.side fun _ => []
  let limit := decide (3 ≤ cc.get newTurn)
  Game.finishMove
    { board := board1, currentTurn := newTurn,
      lastMove := some ⟨fr, fc, tr, tc⟩,
      moveHistory := g.moveHistory ++ [entry], gameOver := g.gameOver,
      winner := g.winner, loseReason := g.loseReason, inCheck := chk,
      consecutiveChecks := cc, checkHistory := ch,
      checkLimitReached := limit }

/-- `Game.makeMove` (game.js).  The one unguarded access of the guard
section, `this.board[fromRow][fromCol]`, throws a TypeError when the row
`fromRow` does not exist on the board (a JS array indexed outside its
range yields `undefined`, and reading a property of `undefined` throws);
that path is `Except.error`.  Every later access runs on indices already
established to be on the board. -/
def Game.makeMove (g : Game) (fr fc tr tc : Int) :
    Except Unit (Bool × Game) :=
  if g.gameOver then .ok (false, g)
  else if ¬(0 ≤ fr ∧ fr.toNat < g.board.length) then .error ()
  else
    match bget g.board fr fc with
    | none => .ok (false, g)
    | some piece =>
      if piece.side ≠ g.currentTurn then .ok (false, g)
      else if (g.getLegalMoves fr fc).any fun m =>
          m.row = tr ∧ m.col = tc then
        .ok (true, g.execMove piece fr fc tr tc)
      else .ok (false, g)

/-- `true` exactly when `makeMove` runs its success path: a convenience
projection for stating theorems about successful moves. -/
def Game.moveSucceeds (g : Game) (fr fc tr tc : Int) : Bool :=
  match g.makeMove fr fc tr tc with
  | .ok (true, _) => true
  | _ => false

/-- The state after `makeMove` (the unchanged state on a `false` return,
and the pre-move state on the throwing path, which leaves `this`
unmodified). -/
def Game.moveResult (g : Game) (fr fc tr tc : Int) : Game :=
  match g.makeMove fr fc tr tc with
  | .ok (_, g1) => g1
  | .error _ => g

/-- `Game.undoMove` (game.js): pop the last history entry and restore
the snapshot; `false` on empty history. -/
def Game.undoMove (g : Game) : Bool × Game :=
  match g.moveHistory.getLast? with
  | none => (false, g)
  | some lastEntry =>
    let hist := g.moveHistory.dropLast
    let cc := lastEntry.prevConsecutiveChecks
    let turn := lastEntry.piece.side
    let lm : Option Move :=
      match hist.getLast? with
      | some prev => some ⟨prev.fromRow, prev.fromCol, prev.toRow, prev.toCol⟩
      | none => none
    (true,
      { board := lastEntry.board, currentTurn := turn, lastMove := lm,
        moveHistory := hist, gameOver := false, winner := none,
        loseReason := none,
        inCheck := isInCheck lastEntry.board turn,
        consecutiveChecks := cc,
        checkHistory := lastEntry.prevCheckHistory,
        checkLimitReached := decide (3 ≤ cc.get turn) })

/-- The serialized snapshot produced by `Game.toJSON` (game.js); each
non-core field is optional on load, the `||` fallbacks of `fromJSON`
supplying defaults (`Option.getD` below; for the nullable fields
`lastMove`, `winner`, `loseReason` the JS `|| null` collapses a missing
and a null value, so `Option` models both at once). -/
structure SaveData where
  board : Board
  currentTurn : Side
  moveHistory : Option (List HistEntry)
  lastMove : Option Move
  gameOver : Option Bool
  winner : Option Side
  loseReason : Option LoseReason
  inCheck : Option Bool
  consecutiveChecks : Option (SidePair Nat)
  checkHistory : Option (SidePair (List CheckRec))
deriving DecidableEq, Repr

/-- `Game.toJSON` (game.js): every serialized field present.
`checkLimitReached` is not serialized. -/
def Game.toJSON (g : Game) : SaveData where
  board := g.board
  currentTurn := g.currentTurn
  moveHistory := some g.moveHistory
  lastMove := g.lastMove
  gameOver := some g.gameOver
  winner := g.winner
  loseReason := g.loseReason
  inCheck := some g.inCheck
  consecutiveChecks := some g.consecutiveChecks
  checkHistory := some g.checkHistory

/-- `Game.fromJSON` (game.js): assign the core payload, defaulting each
missing non-core field, and recompute `checkLimitReached`.  Every field
of the restored state is assigned, so the prior state is irrelevant. -/
def Game.fromJSON (data : SaveData) : Game :=
  let cc := data.consecutiveChecks.getD ⟨0, 0⟩
  { board := data.board
    currentTurn := data.currentTurn
    moveHistory := data.moveHistory.getD []
    lastMove := data.lastMove
    gameOver := data.gameOver.getD false
    winner := data.winner
    loseReason := data.loseReason
    inCheck := data.inCheck.getD false
    consecutiveChecks := cc
    checkHistory := data.checkHistory.getD ⟨[], []⟩
    checkLimitReached := decide (3 ≤ cc.get data.currentTurn) }

/-- The fields of a persisted `gameState` payload that the resume logic
of main.js inspects, each possibly absent: `checkSavedGame` reads only
`gameOver`; `board` and `currentTurn` record whether the core payload is
present. -/
structure RawGameState where
  board : Option Board
  currentTurn : Option Side
  gameOver : Option Bool
deriving DecidableEq, Repr

/-- The whole persisted save as `checkSavedGame` (main.js) sees it after
`JSON.parse`: `gameState` may be absent. -/
structure RawSave where
  gameState : Option RawGameState
deriving DecidableEq, Repr

/-- The acceptance test of `checkSavedGame` (main.js): a save is offered
for resumption unless nothing is stored, parsing yields no object, the
`gameState` payload is absent, or the saved game is already over
(`if (!data || !data.gameState || data.gameState.gameOver) clearSave`).
The presence of `board` and `currentTurn` is never inspected. -/
def saveAccepted (raw : Option RawSave) : Bool :=
  match raw with
  | none => false
  | some d =>
    match d.gameState with
    | none => false
    | some gs => !(gs.gameOver.getD false)

/-- `PIECE_VALUES` (constants.js). -/
def pieceValue : PieceType → Nat
  | .king => 10000
  | .chariot => 900
  | .cannon => 450
  | .horse => 400
  | .elephant => 200
  | .advisor => 200
  | .soldier => 100

namespace AI

/-- `AI.applyMove` (game.js): as `Game.applyMove` but without returning
the captured piece. -/
def applyMove (board : Board) (fr fc tr tc : Int) : Board :=
  bset (bset board tr tc (bget board fr fc)) fr fc none

/-- `AI.isInCheck` (game.js): the bot's own copy; the king search breaks
out of both loops at the first match, i.e. the first king in row-major
order. -/
def isInCheck (b : Board) (side : Side) : Bool :=
  match allCells.findSome? fun rc =>
      match bget b rc.1 rc.2 with
      | some p =>
        if p.type = PieceType.king ∧ p.side = side then
          some (⟨rc.1, rc.2⟩ : Pos)
        else none
      | none => none with
  | none => true
  | some king =>
    allCells.any fun rc =>
      match bget b rc.1 rc.2 with
      | some p =>
        p.side = side.opp ∧
          (getPieceMoves b rc.1 rc.2).any fun m =>
            m.row = king.row ∧ m.col = king.col
      | none => false

/-- `AI.isFlyingGeneral` (game.js): the bot's own copy; its king scan
has no break, so on a malformed board with several kings of one side it
keeps the last one in row-major order. -/
def isFlyingGeneral (b : Board) : Bool :=
  let kings :=
    allCells.foldl
      (fun acc rc =>
        match bget b rc.1 rc.2 with
        | some p =>
          if p.type = PieceType.king then
            match p.side with
            | .red => (some (⟨rc.1, rc.2⟩ : Pos), acc.2)
            | .black => (acc.1, some (⟨rc.1, rc.2⟩ : Pos))
          else acc
        | none => acc)
      ((none : Option Pos), (none : Option Pos))
  match kings.1, kings.2 with
  | some redKing, some blackKing =>
    if redKing.col ≠ blackKing.col then false
    else colClearBetween b redKing.col blackKing.row redKing.row
  | _, _ => false

/-- The captured-piece value used by the move-ordering sorts of
game.js (`captX ? PIECE_VALUES[captX.type] : 0`). -/
def captVal (b : Board) (m : Move) : Nat :=
  match bget b m.toRow m.toCol with
  | some p => pieceValue p.type
  | none => 0

/-- `AI.getAllMovesForBoard` (game.js): pseudo-legal moves of the side,
kept when they create neither self-check nor the flying-general
position, then sorted captures-first (a stable sort descending by
captured value, as the JS comparator `valB - valA`).  The `g` parameter
is passed by the source but never read. -/
def getAllMovesForBoard (b : Board) (side : Side) (g : Game) : List Move :=
  let moves := allCells.flatMap fun rc =>
    match bget b rc.1 rc.2 with
    | some p =>
      if p.side = side then
        (getPieceMoves b rc.1 rc.2).filterMap fun m =>
          let testBoard := applyMove b rc.1 rc.2 m.row m.col
          if ¬isInCheck testBoard side ∧ ¬isFlyingGeneral testBoard then
            some (⟨rc.1, rc.2, m.row, m.col⟩ : Move)
          else none
      else []
    | none => []
  moves.mergeSort fun x y => captVal b y ≤ captVal b x

end AI

/-- The states the rules engine itself can produce: a fresh game
(`reset`), extended by successful `makeMove` and `undoMove` calls. -/
inductive Game.Reachable : Game → Prop where
  | init : Game.Reachable Game.init
  | move {g : Game} (fr fc tr tc : Int) : Game.Reachable g →
      g.moveSucceeds fr fc tr tc = true →
      Game.Reachable (g.moveResult fr fc tr tc)
  | undo {g : Game} : Game.Reachable g → (g.undoMove).1 = true →
      Game.Reachable (g.undoMove).2

/-- A sparse demo board (two kings and a crossed-river red soldier)
for concrete witnesses. -/
def demoBoard : Board :=
  [[none, none, none, some ⟨.king, .black⟩, none, none, none, none, none],
   [none, none, none, none, none, none, none, none, none],
   [none, none, none, none, none, none, none, none, none],
   [none, none, none, none, none, none, none, none, none],
   [none, none, none, none, some ⟨.soldier, .red⟩, none, none, none, none],
   [none, none, none, none, none, none, none, none, none],
   [none, none, none, none, none, none, none, none, none],
   [none, none, none, none, none, none, none, none, none],
   [none, none, none, none, none, none, none, none, none],
   [none, none, none, none, some ⟨.king, .red⟩, none, none, none, none]]

/-- A demo game on `demoBoard` for concrete witnesses. -/
def demoGame : Game where
  board := demoBoard
  currentTurn := .red
  lastMove := none
  moveHistory := []
  gameOver := false
  winner := none
  loseReason := none
  inCheck := false
  consecutiveChecks := ⟨0, 0⟩
  checkHistory := ⟨[], []⟩
  checkLimitReached := false

/-- Modelled from the spec: "the stalemated side was blocked only by the
repeat-check rule at the moment of stalemate" speaks of the legal moves
the side would have had without the repeat-check restriction; this is
`getAllLegalMoves` with the restriction disabled (check streaks
zeroed), for comparison with the restricted set. -/
def Game.movesIgnoringRepeatRule (g : Game) (side : Side) : List Move :=
  ({ g with consecutiveChecks := ⟨0, 0⟩ } : Game).getAllLegalMoves side

/-- The board of the claim-C4 counterexample: black king e10 is mated
outright by the red chariot moving from (4,0) to (0,0), the second red
chariot covering row 1 and the red soldier blocking the king file. -/
def b4 : Board :=
  [[none, none, none, none, some ⟨.king, .black⟩, none, none, none, none],
   [none, none, none, none, none, none, none, none,
    some ⟨.chariot, .red⟩],
   [none, none, none, none, none, none, none, none, none],
   [none, none, none, none, none, none, none, none, none],
   [some ⟨.chariot, .red⟩, none, none, none, none, none, none, none,
    none],
   [none, none, none, none, some ⟨.soldier, .red⟩, none, none, none, none],
   [none, none, none, none, none, none, none, none, none],
   [none, none, none, none, none, none, none, none, none],
   [none, none, none, none, none, none, none, none, none],
   [none, none, none, none, some ⟨.king, .red⟩, none, none, none, none]]

/-- A game on `b4` in which black has already delivered three
consecutive checks (so `checkLimitReached` will hold for black), about
to be checkmated by red. -/
def g4 : Game where
  board := b4
  currentTurn := .red
  lastMove := none
  moveHistory := []
  gameOver := false
  winner := none
  loseReason := none
  inCheck := false
  consecutiveChecks := ⟨0, 3⟩
  checkHistory := ⟨[], [⟨"chariot_1_3", 0, 3⟩, ⟨"chariot_0_3", 1, 3⟩,
    ⟨"chariot_1_3", 0, 3⟩]⟩
  checkLimitReached := true

/-- Board of the repeat-check scenarios: the red chariot on (1,0) can
check the black king along row 0 by moving to (0,0). -/
def b6 : Board :=
  [[none, none, none, none, some ⟨.king, .black⟩, none, none, none, none],
   [some ⟨.chariot, .red⟩, none, none, none, none, none, none, none, none],
   [none, none, none, none, none, none, none, none, none],
   [none, none, none, none, none, none, none, none, none],
   [none, none, none, none, none, none, none, none, none],
   [none, none, none, none, none, none, none, none, none],
   [none, none, none, none, none, none, none, none, none],
   [none, none, none, none, none, none, none, none, none],
   [none, none, none, none, none, none, none, none, none],
   [none, none, none, some ⟨.king, .red⟩, none, none, none, none, none]]

/-- A game on `b6` where red has delivered three consecutive checks and
the chariot check `(1,0) → (0,0)` is recorded in red's `checkHistory`:
the repeat-check restriction is active for red. -/
def g6 : Game where
  board := b6
  currentTurn := .red
  lastMove := none
  moveHistory := []
  gameOver := false
  winner := none
  loseReason := none
  inCheck := false
  consecutiveChecks := ⟨3, 0⟩
  checkHistory := ⟨[⟨"chariot_1_0", 0, 0⟩, ⟨"cannon_2_2", 0, 1⟩,
    ⟨"cannon_2_2", 0, 2⟩], []⟩
  checkLimitReached := false

/-- The 10×9 well-formedness of a board value, as constants.js lays the
initial board out and every move preserves. -/
def Board.WF (b : Board) : Prop :=
  b.length = 10 ∧ ∀ row ∈ b, row.length = 9

instance : DecidablePred Board.WF := fun b =>
  decidable_of_iff (b.length = 10 ∧ ∀ row ∈ b, row.length = 9) Iff.rfl

/-- Does a cell value hold the side's king? -/
def isKingOpt (s : Side) : Option Piece → Bool
  | some p => p.type = PieceType.king ∧ p.side = s
  | none => false

/-- Does the board hold the side's king at the cell? -/
def isKingCell (b : Board) (s : Side) (rc : Int × Int) : Bool :=
  isKingOpt s (bget b rc.1 rc.2)

/-- How many of the side's kings the board holds. -/
def kingCount (b : Board) (s : Side) : Nat :=
  allCells.countP (isKingCell b s)

/-! ## Basic lemmas about the embedding -/

theorem Side.opp_ne (s : Side) : s.opp ≠ s := by
  cases s <;> simp [Side.opp]

theorem inPalace_bounds {r c : Int} {s : Side} (h : inPalace r c s = true) :
    inBounds r c = true := by
  cases s <;> simp [inPalace, inBounds] at h ⊢ <;> omega

theorem captureOk_of_none {b : Board} {nr nc : Int} {s : Side}
    (h : bget b nr nc = none) : captureOk b nr nc s = true := by
  simp [captureOk, h]

theorem captureOk_of_enemy {b : Board} {nr nc : Int} {s : Side} {t : Piece}
    (h : bget b nr nc = some t) (hs : t.side ≠ s) :
    captureOk b nr nc s = true := by
  simp [captureOk, h, hs]

/-- `captureOk` says exactly that the destination holds no own piece. -/
theorem captureOk_spec {b : Board} {nr nc : Int} {s : Side}
    (h : captureOk b nr nc s = true) :
    ∀ q : Piece, bget b nr nc = some q → q.side ≠ s := by
  intro q hq
  simpa [captureOk, hq] using h

/-- Invert the `if c then some a else none` shape produced by the guarded
pushes of the generators. -/
theorem guard_eq_some {α : Type} {c : Prop} [Decidable c] {a m : α}
    (h : (if c then some a else none) = some m) : c ∧ m = a := by
  split at h
  · exact ⟨by assumption, (Option.some_inj.mp h).symm⟩
  · cases h

/-- Invert the `if c then [a] else []` shape. -/
theorem mem_ite_singleton {α : Type} {c : Prop} [Decidable c] {a m : α}
    (h : m ∈ (if c then [a] else ([] : List α))) : c ∧ m = a := by
  split at h
  · exact ⟨by assumption, List.mem_singleton.mp h⟩
  · cases h

/-! ## Every generated destination is on the board and never lands on an
own piece (the shared content of the bounds and self-capture claims). -/

theorem getKingMoves_ok {b : Board} {row col : Int} {side : Side}
    (h : inBounds row col = true) :
    ∀ m ∈ getKingMoves b row col side,
      inBounds m.row m.col = true ∧ captureOk b m.row m.col side = true := by
  intro m hm
  unfold getKingMoves at hm
  rcases List.mem_append.mp hm with hstep | hfly
  · simp only [List.mem_filterMap] at hstep
    obtain ⟨d, _, hf⟩ := hstep
    obtain ⟨hcond, rfl⟩ := guard_eq_some hf
    exact ⟨inPalace_bounds hcond.1, hcond.2⟩
  · simp only [List.mem_filterMap, List.mem_range] at hfly
    obtain ⟨i, hi, hf⟩ := hfly
    rcases hbp : bget b (flyStartRow side.opp + (i : Int)) col with _ | p
    · rw [hbp] at hf
      exact Option.noConfusion hf
    · rw [hbp] at hf
      obtain ⟨hcond, rfl⟩ := guard_eq_some hf
      refine ⟨?_, captureOk_of_enemy hbp ?_⟩
      · have hs : flyStartRow side.opp = 7 ∨ flyStartRow side.opp = 0 := by
          cases side <;> simp [Side.opp, flyStartRow]
        have hi2 : (0 : Int) ≤ (i : Int) ∧ (i : Int) < 3 :=
          ⟨Int.natCast_nonneg i, by exact_mod_cast hi⟩
        clear hi
        simp only [inBounds, decide_eq_true_eq] at h ⊢
        rcases hs with hs | hs <;> rw [hs] <;>
          exact ⟨by omega, by omega, h.2.2.1, h.2.2.2⟩
      · rw [hcond.2.1]
        exact Side.opp_ne side

theorem getAdvisorMoves_ok {b : Board} {row col : Int} {side : Side} :
    ∀ m ∈ getAdvisorMoves b row col side,
      inBounds m.row m.col = true ∧ captureOk b m.row m.col side = true := by
  intro m hm
  unfold getAdvisorMoves at hm
  simp only [List.mem_filterMap] at hm
  obtain ⟨d, _, hf⟩ := hm
  obtain ⟨hcond, rfl⟩ := guard_eq_some hf
  exact ⟨inPalace_bounds hcond.1, hcond.2⟩

theorem getElephantMoves_ok {b : Board} {row col : Int} {side : Side} :
    ∀ m ∈ getElephantMoves b row col side,
      inBounds m.row m.col = true ∧ captureOk b m.row m.col side = true := by
  intro m hm
  unfold getElephantMoves at hm
  simp only [List.mem_filterMap] at hm
  obtain ⟨p, _, hf⟩ := hm
  obtain ⟨hcond, rfl⟩ := guard_eq_some hf
  exact ⟨hcond.1, hcond.2.2.2⟩

theorem getHorseMoves_ok {b : Board} {row col : Int} {side : Side} :
    ∀ m ∈ getHorseMoves b row col side,
      inBounds m.row m.col = true ∧ captureOk b m.row m.col side = true := by
  intro m hm
  unfold getHorseMoves at hm
  simp only [List.mem_flatMap] at hm
  obtain ⟨p, _, hin⟩ := hm
  split at hin
  · simp only [List.mem_filterMap] at hin
    obtain ⟨d, _, hf⟩ := hin
    obtain ⟨hcond, rfl⟩ := guard_eq_some hf
    exact ⟨hcond.1, hcond.2⟩
  · cases hin

theorem chariotRay_ok {b : Board} {side : Side} {dr dc : Int} :
    ∀ (fuel : Nat) (nr nc : Int), ∀ m ∈ chariotRay b side dr dc fuel nr nc,
      inBounds m.row m.col = true ∧ captureOk b m.row m.col side = true := by
  intro fuel
  induction fuel with
  | zero => intro nr nc m hm; cases hm
  | succ n ih =>
    intro nr nc m hm
    rw [chariotRay] at hm
    by_cases hin : inBounds nr nc = true
    · rw [if_pos hin] at hm
      rcases hbp : bget b nr nc with _ | t
      · rw [hbp] at hm
        rcases List.mem_cons.mp hm with rfl | hrest
        · exact ⟨hin, captureOk_of_none hbp⟩
        · exact ih _ _ _ hrest
      · rw [hbp] at hm
        obtain ⟨hts, rfl⟩ := mem_ite_singleton hm
        exact ⟨hin, captureOk_of_enemy hbp hts⟩
    · rw [if_neg hin] at hm
      cases hm

theorem getChariotMoves_ok {b : Board} {row col : Int} {side : Side} :
    ∀ m ∈ getChariotMoves b row col side,
      inBounds m.row m.col = true ∧ captureOk b m.row m.col side = true := by
  intro m hm
  unfold getChariotMoves at hm
  simp only [List.mem_flatMap] at hm
  obtain ⟨d, _, hray⟩ := hm
  exact chariotRay_ok _ _ _ m hray

theorem cannonRay_ok {b : Board} {side : Side} {dr dc : Int} :
    ∀ (fuel : Nat) (jumped : Bool) (nr nc : Int),
      ∀ m ∈ cannonRay b side dr dc fuel jumped nr nc,
        inBounds m.row m.col = true ∧ captureOk b m.row m.col side = true := by
  intro fuel
  induction fuel with
  | zero => intro jumped nr nc m hm; cases hm
  | succ n ih =>
    intro jumped nr nc m hm
    have hstep : cannonRay b side dr dc (n + 1) jumped nr nc =
        if inBounds nr nc then
          match bget b nr nc, jumped with
          | none, false =>
            ⟨nr, nc⟩ :: cannonRay b side dr dc n false (nr + dr) (nc + dc)
          | some _, false => cannonRay b side dr dc n true (nr + dr) (nc + dc)
          | none, true => cannonRay b side dr dc n true (nr + dr) (nc + dc)
          | some t, true => if t.side ≠ side then [⟨nr, nc⟩] else []
        else [] := rfl
    rw [hstep] at hm
    by_cases hin : inBounds nr nc = true
    · rw [if_pos hin] at hm
      rcases hbp : bget b nr nc with _ | t <;> rw [hbp] at hm <;> cases jumped
      · rcases List.mem_cons.mp hm with rfl | hrest
        · exact ⟨hin, captureOk_of_none hbp⟩
        · exact ih _ _ _ _ hrest
      · exact ih _ _ _ _ hm
      · exact ih _ _ _ _ hm
      · obtain ⟨hts, rfl⟩ := mem_ite_singleton hm
        exact ⟨hin, captureOk_of_enemy hbp hts⟩
    · rw [if_neg hin] at hm
      cases hm

theorem getCannonMoves_ok {b : Board} {row col : Int} {side : Side} :
    ∀ m ∈ getCannonMoves b row col side,
      inBounds m.row m.col = true ∧ captureOk b m.row m.col side = true := by
  intro m hm
  unfold getCannonMoves at hm
  simp only [List.mem_flatMap] at hm
  obtain ⟨d, _, hray⟩ := hm
  exact cannonRay_ok _ _ _ _ m hray

theorem getSoldierMoves_ok {b : Board} {row col : Int} {side : Side} :
    ∀ m ∈ getSoldierMoves b row col side,
      inBounds m.row m.col = true ∧ captureOk b m.row m.col side = true := by
  intro m hm
  unfold getSoldierMoves at hm
  rcases List.mem_append.mp hm with hfwd | hside
  · obtain ⟨hcond, rfl⟩ := mem_ite_singleton hfwd
    exact ⟨hcond.1, hcond.2⟩
  · split at hside
    · simp only [List.mem_filterMap] at hside
      obtain ⟨dc, _, hf⟩ := hside
      obtain ⟨hcond, rfl⟩ := guard_eq_some hf
      exact ⟨hcond.1, hcond.2⟩
    · cases hside

/-- Both conclusions at once for the dispatching generator. -/
theorem getPieceMoves_ok {b : Board} {row col : Int} {piece : Piece}
    (hp : bget b row col = some piece) (h : inBounds row col = true) :
    ∀ m ∈ getPieceMoves b row col,
      inBounds m.row m.col = true ∧
        captureOk b m.row m.col piece.side = true := by
  intro m hm
  have hm2 : m ∈
      (match piece.type with
        | PieceType.king => getKingMoves b row col piece.side
        | PieceType.advisor => getAdvisorMoves b row col piece.side
        | PieceType.elephant => getElephantMoves b row col piece.side
        | PieceType.horse => getHorseMoves b row col piece.side
        | PieceType.chariot => getChariotMoves b row col piece.side
        | PieceType.cannon => getCannonMoves b row col piece.side
        | PieceType.soldier => getSoldierMoves b row col piece.side) := by
    unfold getPieceMoves at hm
    rw [hp] at hm
    exact hm
  cases htype : piece.type <;> rw [htype] at hm2
  · exact getKingMoves_ok h m hm2
  · exact getAdvisorMoves_ok m hm2
  · exact getElephantMoves_ok m hm2
  · exact getHorseMoves_ok m hm2
  · exact getChariotMoves_ok m hm2
  · exact getCannonMoves_ok m hm2
  · exact getSoldierMoves_ok m hm2

/-- Invert the `if c then false else C` shape of the legality filter. -/
theorem ite_false_elim {c : Prop} [Decidable c] {C : Bool}
    (h : (if c then false else C) = true) : ¬c ∧ C = true := by
  split at h
  · cases h
  · exact ⟨by assumption, h⟩

/-- Claim C9: every destination returned by `getPieceMoves` from an
in-bounds source square satisfies `0 ≤ row ≤ 9` and `0 ≤ col ≤ 8`, so
indexing the board at a returned destination stays within bounds. -/
theorem getPieceMoves_destinations_in_bounds (b : Board) (row col : Int)
    (h : inBounds row col = true) :
    ∀ m ∈ getPieceMoves b row col, inBounds m.row m.col = true := by
  rcases hp : bget b row col with _ | piece
  · intro m hm
    unfold getPieceMoves at hm
    rw [hp] at hm
    cases hm
  · intro m hm
    exact (getPieceMoves_ok hp h m hm).1

theorem getPieceMoves_destinations_in_bounds_witness :
    inBounds 4 4 = true ∧
      ∀ m ∈ getPieceMoves demoBoard 4 4, inBounds m.row m.col = true :=
  ⟨by decide, getPieceMoves_destinations_in_bounds demoBoard 4 4 (by decide)⟩

/-- Claim C10: no destination returned by `getPieceMoves` is a square
occupied by a piece of the moving piece's own side, for all seven piece
types. -/
theorem getPieceMoves_no_own_capture (b : Board) (row col : Int)
    (piece : Piece) (hp : bget b row col = some piece)
    (h : inBounds row col = true) :
    ∀ m ∈ getPieceMoves b row col,
      ∀ q : Piece, bget b m.row m.col = some q → q.side ≠ piece.side := by
  intro m hm
  exact captureOk_spec (getPieceMoves_ok hp h m hm).2

theorem getPieceMoves_no_own_capture_witness :
    bget demoBoard 9 4 = some ⟨.king, .red⟩ ∧ inBounds 9 4 = true ∧
      ∀ m ∈ getPieceMoves demoBoard 9 4,
        ∀ q : Piece, bget demoBoard m.row m.col = some q → q.side ≠ .red :=
  ⟨by decide, by decide,
    getPieceMoves_no_own_capture demoBoard 9 4 ⟨.king, .red⟩ (by decide)
      (by decide)⟩

/-- Claim C1: every destination kept by the legality filter
`getLegalMoves` leads, once the move is applied to a copy of the board,
to a position where the mover's own king is not in check and the
flying-general violation does not hold. -/
theorem getLegalMoves_no_self_check_no_flying_general (g : Game)
    (row col : Int) (piece : Piece) (hp : bget g.board row col = some piece) :
    ∀ m ∈ g.getLegalMoves row col,
      isInCheck (applyMove g.board row col m.row m.col).1 piece.side =
          false ∧
        isFlyingGeneral (applyMove g.board row col m.row m.col).1 = false := by
  intro m hm
  simp only [Game.getLegalMoves, hp] at hm
  obtain ⟨-, hpred⟩ := List.mem_filter.mp hm
  obtain ⟨hnot, -⟩ := ite_false_elim hpred
  have hor : (isInCheck (applyMove g.board row col m.row m.col).1 piece.side ||
      isFlyingGeneral (applyMove g.board row col m.row m.col).1) = false := by
    simpa using hnot
  simpa using hor

theorem getLegalMoves_no_self_check_no_flying_general_witness :
    bget demoGame.board 4 4 = some ⟨.soldier, .red⟩ ∧
      ∀ m ∈ demoGame.getLegalMoves 4 4,
        isInCheck (applyMove demoGame.board 4 4 m.row m.col).1 Side.red =
            false ∧
          isFlyingGeneral (applyMove demoGame.board 4 4 m.row m.col).1 =
            false :=
  ⟨by decide,
    getLegalMoves_no_self_check_no_flying_general demoGame 4 4
      ⟨.soldier, .red⟩ (by decide)⟩

/-- Claim C5, amended: with the game over, or with a source row that
exists on the board, every rejected submission returns `false` and
leaves the state untouched: (1) the game is already over; (2) the source
cell is empty; (3) the source piece is not the current side's; (4) the
destination is not in the source piece's legal-move set.  (For a source
row that does not exist on the board and a game not yet over, the source
instead throws, see `makeMove_throws_counterexample`.) -/
theorem makeMove_rejects_without_mutation (g : Game) (fr fc tr tc : Int) :
    (g.gameOver = true → g.makeMove fr fc tr tc = .ok (false, g)) ∧
      (0 ≤ fr → fr.toNat < g.board.length → bget g.board fr fc = none →
        g.makeMove fr fc tr tc = .ok (false, g)) ∧
      (∀ piece : Piece, 0 ≤ fr → fr.toNat < g.board.length →
        bget g.board fr fc = some piece → piece.side ≠ g.currentTurn →
        g.makeMove fr fc tr tc = .ok (false, g)) ∧
      (0 ≤ fr → fr.toNat < g.board.length →
        ((g.getLegalMoves fr fc).any fun m => m.row = tr ∧ m.col = tc) =
          false →
        g.makeMove fr fc tr tc = .ok (false, g)) := by
  refine ⟨?_, ?_, ?_, ?_⟩
  · intro hgo
    unfold Game.makeMove
    rw [if_pos hgo]
  · intro h0 hlen hbn
    unfold Game.makeMove
    by_cases hgo : g.gameOver
    · rw [if_pos hgo]
    · rw [if_neg hgo, if_neg (not_not_intro ⟨h0, hlen⟩), hbn]
  · intro piece h0 hlen hbp hside
    unfold Game.makeMove
    by_cases hgo : g.gameOver
    · rw [if_pos hgo]
    · rw [if_neg hgo, if_neg (not_not_intro ⟨h0, hlen⟩), hbp]
      exact if_pos hside
  · intro h0 hlen hany
    unfold Game.makeMove
    by_cases hgo : g.gameOver
    · rw [if_pos hgo]
    · rw [if_neg hgo, if_neg (not_not_intro ⟨h0, hlen⟩)]
      rcases hbp : bget g.board fr fc with _ | piece
      · rfl
      · by_cases hside : piece.side ≠ g.currentTurn
        · exact if_pos hside
        · rw [not_not] at hside
          simp [hside]
          simpa using hany

/-- Claim C5 counterexample: submitting a move from the nonexistent row
10 of a fresh (not-yet-over) game reads `board[10][0]`, i.e. a property
of `undefined`, and throws instead of returning `false`. -/
theorem makeMove_throws_counterexample :
    Game.init.makeMove 10 0 0 0 = .error () := rfl

/-- Claim C7, amended: `fromJSON` substitutes the documented defaults
for every missing non-core field, and the load-acceptance test of
`checkSavedGame` abandons a save exactly when the payload or its
`gameState` is absent or the saved game is already over — the presence
of the core fields `board` and `currentTurn` is never inspected. -/
theorem fromJSON_defaults_and_load_guard (b : Board) (t : Side)
    (bb : Option Board) (tt : Option Side) (go : Option Bool) :
    Game.fromJSON ⟨b, t, none, none, none, none, none, none, none, none⟩ =
        { board := b, currentTurn := t, lastMove := none, moveHistory := [],
          gameOver := false, winner := none, loseReason := none,
          inCheck := false, consecutiveChecks := ⟨0, 0⟩,
          checkHistory := ⟨[], []⟩, checkLimitReached := false } ∧
      saveAccepted (some ⟨some ⟨bb, tt, go⟩⟩) = !(go.getD false) := by
  refine ⟨?_, rfl⟩
  cases t <;> rfl

/-- Claim C7 counterexample: a save with the full core payload present
but `gameOver = true` is abandoned, and a save whose `currentTurn` is
missing (half the core payload absent) is accepted — so the load is not
abandoned "exactly when the core payload (board, turn) is absent". -/
theorem load_guard_counterexample :
    saveAccepted (some ⟨some ⟨some initialBoard, some .red, some true⟩⟩) =
        false ∧
      saveAccepted (some ⟨some ⟨some initialBoard, none, none⟩⟩) = true :=
  ⟨rfl, rfl⟩

/-! ## Inversion of a successful `makeMove` -/

/-- A successful `makeMove` passed every guard and ran `execMove`. -/
theorem Game.makeMove_ok_true {g : Game} {fr fc tr tc : Int} {g1 : Game}
    (h : g.makeMove fr fc tr tc = .ok (true, g1)) :
    ∃ piece : Piece, g.gameOver = false ∧ bget g.board fr fc = some piece ∧
      piece.side = g.currentTurn ∧
      ((g.getLegalMoves fr fc).any fun m => m.row = tr ∧ m.col = tc) =
        true ∧
      g1 = g.execMove piece fr fc tr tc := by
  unfold Game.makeMove at h
  by_cases hgo : g.gameOver
  · rw [if_pos hgo] at h
    simp at h
  · rw [if_neg hgo] at h
    by_cases hrow : 0 ≤ fr ∧ fr.toNat < g.board.length
    · rw [if_neg (not_not_intro hrow)] at h
      rcases hbp : bget g.board fr fc with _ | piece <;> rw [hbp] at h
      · simp at h
      · have h2 : (if piece.side ≠ g.currentTurn then
            Except.ok (false, g)
          else if ((g.getLegalMoves fr fc).any fun m =>
              m.row = tr ∧ m.col = tc) = true then
            Except.ok (true, g.execMove piece fr fc tr tc)
          else Except.ok (false, g)) = Except.ok (true, g1) := h
        by_cases hside : piece.side ≠ g.currentTurn
        · rw [if_pos hside] at h2
          simp at h2
        · rw [if_neg hside] at h2
          by_cases hleg : ((g.getLegalMoves fr fc).any fun m =>
              m.row = tr ∧ m.col = tc) = true
          · rw [if_pos hleg] at h2
            refine ⟨piece, by simpa using hgo, rfl, not_not.mp hside, hleg,
              ?_⟩
            have h3 := h2
            simp only [Except.ok.injEq, Prod.mk.injEq] at h3
            exact h3.2.symm
          · rw [if_neg hleg] at h2
            simp at h2
    · rw [if_pos hrow] at h
      exact Except.noConfusion h

/-- `moveSucceeds` in terms of the guards and `execMove`. -/
theorem Game.moveSucceeds_spec {g : Game} {fr fc tr tc : Int}
    (h : g.moveSucceeds fr fc tr tc = true) :
    ∃ piece : Piece, g.gameOver = false ∧ bget g.board fr fc = some piece ∧
      piece.side = g.currentTurn ∧
      ((g.getLegalMoves fr fc).any fun m => m.row = tr ∧ m.col = tc) =
        true ∧
      g.moveResult fr fc tr tc = g.execMove piece fr fc tr tc := by
  unfold Game.moveSucceeds at h
  rcases hmk : g.makeMove fr fc tr tc with e | pair <;> rw [hmk] at h
  · exact Bool.noConfusion h
  · obtain ⟨bres, gafter⟩ := pair
    cases bres
    · exact Bool.noConfusion h
    · obtain ⟨piece, hgo, hbp, hside, hleg, hexec⟩ :=
        Game.makeMove_ok_true hmk
      refine ⟨piece, hgo, hbp, hside, hleg, ?_⟩
      unfold Game.moveResult
      rw [hmk]
      exact hexec

/-- `finishMove` only ever touches `gameOver`, `winner` and
`loseReason`. -/
theorem Game.finishMove_frame (g1 : Game) :
    (g1.finishMove).board = g1.board ∧
      (g1.finishMove).currentTurn = g1.currentTurn ∧
      (g1.finishMove).lastMove = g1.lastMove ∧
      (g1.finishMove).moveHistory = g1.moveHistory ∧
      (g1.finishMove).inCheck = g1.inCheck ∧
      (g1.finishMove).consecutiveChecks = g1.consecutiveChecks ∧
      (g1.finishMove).checkHistory = g1.checkHistory ∧
      (g1.finishMove).checkLimitReached = g1.checkLimitReached := by
  unfold Game.finishMove
  split <;> exact ⟨rfl, rfl, rfl, rfl, rfl, rfl, rfl, rfl⟩

/-- The history entry pushed by a successful move: the full pre-move
snapshot. -/
theorem Game.execMove_moveHistory (g : Game) (piece : Piece)
    (fr fc tr tc : Int) :
    (g.execMove piece fr fc tr tc).moveHistory =
      g.moveHistory ++ [⟨fr, fc, tr, tc, piece, bget g.board tr tc, g.board,
        g.consecutiveChecks, g.checkHistory⟩] := by
  simp only [Game.execMove]
  exact (Game.finishMove_frame _).2.2.2.1

/-- Undoing a state whose history ends in `e` restores `e`'s snapshot. -/
theorem Game.undoMove_of_concat {g2 : Game} {l : List HistEntry}
    {e : HistEntry} (h : g2.moveHistory = l ++ [e]) :
    (g2.undoMove).1 = true ∧
      (g2.undoMove).2.board = e.board ∧
      (g2.undoMove).2.currentTurn = e.piece.side ∧
      (g2.undoMove).2.consecutiveChecks = e.prevConsecutiveChecks ∧
      (g2.undoMove).2.checkHistory = e.prevCheckHistory ∧
      (g2.undoMove).2.moveHistory = l := by
  unfold Game.undoMove
  rw [h, List.getLast?_concat]
  exact ⟨rfl, rfl, rfl, rfl, rfl, List.dropLast_concat⟩

/-- Claim C2: a successful `makeMove` followed immediately by `undoMove`
returns `true` and restores `board`, `currentTurn`,
`consecutiveChecks`, `checkHistory` and `moveHistory` exactly. -/
theorem makeMove_undoMove_inverse (g : Game) (fr fc tr tc : Int)
    (h : g.moveSucceeds fr fc tr tc = true) :
    ((g.moveResult fr fc tr tc).undoMove).1 = true ∧
      ((g.moveResult fr fc tr tc).undoMove).2.board = g.board ∧
      ((g.moveResult fr fc tr tc).undoMove).2.currentTurn = g.currentTurn ∧
      ((g.moveResult fr fc tr tc).undoMove).2.consecutiveChecks =
        g.consecutiveChecks ∧
      ((g.moveResult fr fc tr tc).undoMove).2.checkHistory =
        g.checkHistory ∧
      ((g.moveResult fr fc tr tc).undoMove).2.moveHistory =
        g.moveHistory := by
  obtain ⟨piece, hgo, hbp, hside, hleg, hres⟩ := Game.moveSucceeds_spec h
  rw [hres]
  obtain ⟨h1, h2, h3, h4, h5, h6⟩ :=
    Game.undoMove_of_concat (Game.execMove_moveHistory g piece fr fc tr tc)
  exact ⟨h1, h2, h3.trans hside, h4, h5, h6⟩

theorem makeMove_undoMove_inverse_witness :
    demoGame.moveSucceeds 4 4 3 4 = true ∧
      (((demoGame.moveResult 4 4 3 4).undoMove).1 = true ∧
        ((demoGame.moveResult 4 4 3 4).undoMove).2.board = demoGame.board ∧
        ((demoGame.moveResult 4 4 3 4).undoMove).2.currentTurn =
          demoGame.currentTurn ∧
        ((demoGame.moveResult 4 4 3 4).undoMove).2.consecutiveChecks =
          demoGame.consecutiveChecks ∧
        ((demoGame.moveResult 4 4 3 4).undoMove).2.checkHistory =
          demoGame.checkHistory ∧
        ((demoGame.moveResult 4 4 3 4).undoMove).2.moveHistory =
          demoGame.moveHistory) :=
  ⟨by decide, makeMove_undoMove_inverse demoGame 4 4 3 4 (by decide)⟩

theorem Side.opp_opp (s : Side) : s.opp.opp = s := by
  cases s <;> rfl

/-! ## The `checkLimitReached` invariant and the serialization round
trip -/

/-- `finishMove` preserves the defining equation of
`checkLimitReached`. -/
theorem Game.finishMove_limit {g1 : Game}
    (h : g1.checkLimitReached =
      decide (3 ≤ g1.consecutiveChecks.get g1.currentTurn)) :
    (g1.finishMove).checkLimitReached =
      decide (3 ≤ (g1.finishMove).consecutiveChecks.get
        (g1.finishMove).currentTurn) := by
  obtain ⟨-, h2, -, -, -, h6, -, h8⟩ := Game.finishMove_frame g1
  rw [h8, h6, h2, h]

/-- After `execMove`, `checkLimitReached` is the check-limit test of the
new current player, as `makeMove` recomputes it. -/
theorem Game.execMove_limit (g : Game) (piece : Piece)
    (fr fc tr tc : Int) :
    (g.execMove piece fr fc tr tc).checkLimitReached =
      decide (3 ≤ (g.execMove piece fr fc tr tc).consecutiveChecks.get
        (g.execMove piece fr fc tr tc).currentTurn) := by
  simp only [Game.execMove]
  exact Game.finishMove_limit rfl

/-- `undoMove` recomputes `checkLimitReached` from the restored
counters. -/
theorem Game.undoMove_limit {g : Game} (hu : (g.undoMove).1 = true) :
    (g.undoMove).2.checkLimitReached =
      decide (3 ≤ (g.undoMove).2.consecutiveChecks.get
        (g.undoMove).2.currentTurn) := by
  unfold Game.undoMove at hu ⊢
  rcases hl : g.moveHistory.getLast? with _ | e
  · rw [hl] at hu
    exact Bool.noConfusion hu
  · rfl

/-- In every state the engine itself produces, `checkLimitReached`
equals the check-limit test of the current player. -/
theorem Game.reachable_limit_inv {g : Game} (h : g.Reachable) :
    g.checkLimitReached =
      decide (3 ≤ g.consecutiveChecks.get g.currentTurn) := by
  induction h with
  | init => rfl
  | move fr fc tr tc hr hs ih =>
    obtain ⟨piece, -, -, -, -, hres⟩ := Game.moveSucceeds_spec hs
    rw [hres]
    exact Game.execMove_limit _ _ _ _ _ _
  | undo hr hu => exact Game.undoMove_limit hu

/-- Claim C8: serializing and deserializing any reachable game state is
the identity on every field (the one field `toJSON` does not store,
`checkLimitReached`, is recomputed by `fromJSON` and agrees by
`reachable_limit_inv`). -/
theorem toJSON_fromJSON_roundtrip (g : Game) (h : g.Reachable) :
    Game.fromJSON g.toJSON = g := by
  have hinv := Game.reachable_limit_inv h
  obtain ⟨board, turn, lm, mh, go, w, lr, ic, cc, ch, clr⟩ := g
  simp only [Game.toJSON, Game.fromJSON, Option.getD_some] at hinv ⊢
  simp [Game.mk.injEq, hinv]

theorem toJSON_fromJSON_roundtrip_witness :
    Game.fromJSON Game.init.toJSON = Game.init :=
  toJSON_fromJSON_roundtrip Game.init Game.Reachable.init

/-! ## Terminal-state detection (claim C4) -/

/-- The two branches of `finishMove`: with zero legal moves for the
current player the game ends, the winner being that player's opponent
and the lose reason decided by `checkLimitReached`; otherwise
`gameOver`, `winner` and `loseReason` are untouched. -/
theorem Game.finishMove_endgame (g1 : Game) :
    ((g1.finishMove).getAllLegalMoves (g1.finishMove).currentTurn = [] →
      (g1.finishMove).gameOver = true ∧
        (g1.finishMove).winner = some g1.currentTurn.opp ∧
        (g1.finishMove).loseReason =
          some (if (g1.finishMove).checkLimitReached then
            LoseReason.perpetualCheck else LoseReason.checkmate)) ∧
      ((g1.finishMove).getAllLegalMoves (g1.finishMove).currentTurn ≠ [] →
        (g1.finishMove).gameOver = g1.gameOver ∧
          (g1.finishMove).winner = g1.winner ∧
          (g1.finishMove).loseReason = g1.loseReason) := by
  unfold Game.finishMove
  split
  · rename_i hpos
    refine ⟨fun hempty => ?_, fun _ => ⟨rfl, rfl, rfl⟩⟩
    rw [hempty] at hpos
    simp at hpos
  · rename_i hneg
    refine ⟨fun _ => ⟨rfl, rfl, rfl⟩, fun hnon => ?_⟩
    exact absurd (List.length_pos.mpr hnon) hneg

/-- The endgame bookkeeping of a successful move: with zero legal moves
for the new current player the game ends with the mover as winner and
the lose reason decided by `checkLimitReached`; otherwise `gameOver`,
`winner` and `loseReason` keep their pre-move values. -/
theorem Game.execMove_endgame (g : Game) (piece : Piece)
    (fr fc tr tc : Int) (hgo : g.gameOver = false) :
    ((g.execMove piece fr fc tr tc).getAllLegalMoves
        (g.execMove piece fr fc tr tc).currentTurn = [] →
      (g.execMove piece fr fc tr tc).gameOver = true ∧
        (g.execMove piece fr fc tr tc).winner = some g.currentTurn ∧
        (g.execMove piece fr fc tr tc).loseReason =
          some (if (g.execMove piece fr fc tr tc).checkLimitReached then
            LoseReason.perpetualCheck else LoseReason.checkmate)) ∧
      ((g.execMove piece fr fc tr tc).getAllLegalMoves
          (g.execMove piece fr fc tr tc).currentTurn ≠ [] →
        (g.execMove piece fr fc tr tc).gameOver = false ∧
          (g.execMove piece fr fc tr tc).winner = g.winner ∧
          (g.execMove piece fr fc tr tc).loseReason = g.loseReason) := by
  simp only [Game.execMove]
  refine ⟨fun hempty => ?_, fun hnon => ?_⟩
  · obtain ⟨h1, h2, h3⟩ := (Game.finishMove_endgame _).1 hempty
    exact ⟨h1, h2.trans (congrArg some (Side.opp_opp g.currentTurn)), h3⟩
  · obtain ⟨h1, h2, h3⟩ := (Game.finishMove_endgame _).2 hnon
    exact ⟨h1.trans hgo, h2, h3⟩

/-- Claim C4, amended: after a successful `makeMove`, if the side now
holding `currentTurn` has zero legal moves then `gameOver` is set,
`winner` is the side that just moved, and `loseReason` is
`perpetual-check` when `checkLimitReached` holds (the stalemated side
had delivered three or more consecutive checks) and `checkmate`
otherwise; with at least one legal move those three fields keep their
in-progress values. -/
theorem makeMove_endgame_detection (g : Game) (fr fc tr tc : Int)
    (h : g.moveSucceeds fr fc tr tc = true) :
    ((g.moveResult fr fc tr tc).getAllLegalMoves
        (g.moveResult fr fc tr tc).currentTurn = [] →
      (g.moveResult fr fc tr tc).gameOver = true ∧
        (g.moveResult fr fc tr tc).winner = some g.currentTurn ∧
        (g.moveResult fr fc tr tc).loseReason =
          some (if (g.moveResult fr fc tr tc).checkLimitReached then
            LoseReason.perpetualCheck else LoseReason.checkmate)) ∧
      ((g.moveResult fr fc tr tc).getAllLegalMoves
          (g.moveResult fr fc tr tc).currentTurn ≠ [] →
        (g.moveResult fr fc tr tc).gameOver = false ∧
          (g.moveResult fr fc tr tc).winner = g.winner ∧
          (g.moveResult fr fc tr tc).loseReason = g.loseReason) := by
  obtain ⟨piece, hgo, -, -, -, hres⟩ := Game.moveSucceeds_spec h
  rw [hres]
  exact Game.execMove_endgame g piece fr fc tr tc hgo

theorem makeMove_endgame_detection_witness :
    demoGame.moveSucceeds 4 4 3 4 = true ∧
      (((demoGame.moveResult 4 4 3 4).getAllLegalMoves
          (demoGame.moveResult 4 4 3 4).currentTurn = [] →
        (demoGame.moveResult 4 4 3 4).gameOver = true ∧
          (demoGame.moveResult 4 4 3 4).winner = some demoGame.currentTurn ∧
          (demoGame.moveResult 4 4 3 4).loseReason =
            some (if (demoGame.moveResult 4 4 3 4).checkLimitReached then
              LoseReason.perpetualCheck else LoseReason.checkmate)) ∧
        ((demoGame.moveResult 4 4 3 4).getAllLegalMoves
            (demoGame.moveResult 4 4 3 4).currentTurn ≠ [] →
          (demoGame.moveResult 4 4 3 4).gameOver = false ∧
            (demoGame.moveResult 4 4 3 4).winner = demoGame.winner ∧
            (demoGame.moveResult 4 4 3 4).loseReason =
              demoGame.loseReason)) :=
  ⟨by decide, makeMove_endgame_detection demoGame 4 4 3 4 (by decide)⟩

/-- Claim C4 counterexample: red's move checkmates black outright —
black has zero legal moves even with the repeat-check rule disabled, so
black is not "blocked only by the repeat-check rule" and the claim
requires `loseReason = 'checkmate'` — yet the code records
`'perpetual-check'`, because black's own `consecutiveChecks` is 3. -/
theorem makeMove_endgame_reason_counterexample :
    g4.moveSucceeds 4 0 0 0 = true ∧
      (g4.moveResult 4 0 0 0).movesIgnoringRepeatRule Side.black = [] ∧
      (g4.moveResult 4 0 0 0).loseReason =
        some LoseReason.perpetualCheck :=
  ⟨by decide, by decide, by decide⟩

/-! ## The perpetual-check restriction (claim C3) -/

/-- The value of the legality filter's predicate, with the two safety
bools, the repeat-gate bools and the repeat count abstracted. -/
theorem repeatFilter_spec {A1 A2 M B : Bool} {n : Nat} :
    ((if (A1 || A2) = true then false
      else if (M && B) = true then decide (n < 1) else true) = true) ↔
      (A1 = false ∧ A2 = false ∧ (M = true → B = true → n = 0)) := by
  cases A1 <;> cases A2 <;> cases M <;> cases B <;> simp <;> omega

/-- Claim C3: for a piece of a side with `consecutiveChecks ≥ 3`, the
legality filter excludes exactly those safe destinations whose
resulting position checks the opponent and whose
`{piece type and origin, destination}` pattern is already recorded in
that side's `checkHistory`; safe moves that do not check the opponent,
or whose pattern is not recorded, are kept. -/
theorem getLegalMoves_repeat_check_exclusion (g : Game) (row col : Int)
    (piece : Piece) (hp : bget g.board row col = some piece)
    (hcc : 3 ≤ g.consecutiveChecks.get piece.side) :
    ∀ m : Pos, m ∈ g.getLegalMoves row col ↔
      (m ∈ getPieceMoves g.board row col ∧
        isInCheck (applyMove g.board row col m.row m.col).1 piece.side =
          false ∧
        isFlyingGeneral (applyMove g.board row col m.row m.col).1 = false ∧
        ¬(isInCheck (applyMove g.board row col m.row m.col).1
            piece.side.opp = true ∧
          ∃ h ∈ g.checkHistory.get piece.side,
            h.pieceKey = mkPieceKey piece.type row col ∧ h.toRow = m.row ∧
              h.toCol = m.col)) := by
  intro m
  have hmar : decide (3 ≤ g.consecutiveChecks.get piece.side) = true :=
    decide_eq_true hcc
  have hcount : (((g.checkHistory.get piece.side).filter fun h =>
        h.pieceKey = mkPieceKey piece.type row col ∧ h.toRow = m.row ∧
          h.toCol = m.col).length = 0) ↔
      ¬∃ h ∈ g.checkHistory.get piece.side,
        h.pieceKey = mkPieceKey piece.type row col ∧ h.toRow = m.row ∧
          h.toCol = m.col := by
    rw [List.length_eq_zero, List.filter_eq_nil_iff]
    simp
  simp only [Game.getLegalMoves, hp, List.mem_filter]
  rw [repeatFilter_spec]
  constructor
  · rintro ⟨hmem, hA1, hA2, himp⟩
    refine ⟨hmem, hA1, hA2, ?_⟩
    rintro ⟨hB, hex⟩
    exact (hcount.mp (himp hmar hB)) hex
  · rintro ⟨hmem, hA1, hA2, hnot⟩
    refine ⟨hmem, hA1, hA2, fun _ hB => ?_⟩
    exact hcount.mpr fun hex => hnot ⟨hB, hex⟩

theorem getLegalMoves_repeat_check_exclusion_witness :
    bget g6.board 1 0 = some ⟨.chariot, .red⟩ ∧
      3 ≤ g6.consecutiveChecks.get Side.red ∧
      ∀ m : Pos, m ∈ g6.getLegalMoves 1 0 ↔
        (m ∈ getPieceMoves g6.board 1 0 ∧
          isInCheck (applyMove g6.board 1 0 m.row m.col).1 Side.red =
            false ∧
          isFlyingGeneral (applyMove g6.board 1 0 m.row m.col).1 = false ∧
          ¬(isInCheck (applyMove g6.board 1 0 m.row m.col).1 Side.black =
              true ∧
            ∃ h ∈ g6.checkHistory.get Side.red,
              h.pieceKey = mkPieceKey PieceType.chariot 1 0 ∧
                h.toRow = m.row ∧ h.toCol = m.col)) :=
  ⟨by decide, by decide,
    getLegalMoves_repeat_check_exclusion g6 1 0 ⟨.chariot, .red⟩
      (by decide) (by decide)⟩

/-! ## Board surgery lemmas (for the bot/filter comparison, claim C6) -/

theorem mem_allCells (rc : Int × Int) :
    rc ∈ allCells ↔ inBounds rc.1 rc.2 = true := by
  obtain ⟨r, c⟩ := rc
  constructor
  · intro hm
    simp only [allCells, List.mem_flatMap, List.mem_map,
      List.mem_range] at hm
    obtain ⟨a, ha, b2, hb2, heq⟩ := hm
    have h1 : (a : Int) = r := congrArg Prod.fst heq
    have h2 : (b2 : Int) = c := congrArg Prod.snd heq
    simp only [inBounds, decide_eq_true_eq]
    omega
  · intro hb
    simp only [inBounds, decide_eq_true_eq] at hb
    simp only [allCells, List.mem_flatMap, List.mem_map, List.mem_range]
    refine ⟨r.toNat, by omega, c.toNat, by omega, ?_⟩
    rw [Int.toNat_of_nonneg hb.1, Int.toNat_of_nonneg hb.2.2.1]

theorem allCells_nodup : allCells.Nodup := by decide

theorem bset_WF {b : Board} (h : Board.WF b) (r c : Int)
    (v : Option Piece) : Board.WF (bset b r c v) := by
  unfold bset
  split
  · rcases hrow : b[r.toNat]? with _ | row
    · exact h
    · obtain ⟨hlt, hget⟩ := List.getElem?_eq_some_iff.mp hrow
      refine ⟨by rw [List.length_set]; exact h.1, ?_⟩
      intro row2 hrow2
      rcases List.mem_or_eq_of_mem_set hrow2 with hmem | rfl
      · exact h.2 row2 hmem
      · rw [List.length_set]
        exact h.2 row (hget ▸ List.getElem_mem hlt)
  · exact h

theorem bget_bset {b : Board} (hWF : Board.WF b) {r c : Int}
    (hrc : inBounds r c = true) (v : Option Piece) (r2 c2 : Int) :
    bget (bset b r c v) r2 c2 =
      if r2 = r ∧ c2 = c then v else bget b r2 c2 := by
  have hb : 0 ≤ r ∧ r < 10 ∧ 0 ≤ c ∧ c < 9 := by
    simpa [inBounds] using hrc
  obtain ⟨h0r, h10r, h0c, h9c⟩ := hb
  have hrlt : r.toNat < b.length := by rw [hWF.1]; omega
  have hrow : b[r.toNat]? = some b[r.toNat] := List.getElem?_eq_getElem hrlt
  have hrowlen : (b[r.toNat]).length = 9 :=
    hWF.2 b[r.toNat] (List.getElem_mem hrlt)
  unfold bset
  rw [if_pos ⟨h0r, h0c⟩, hrow]
  by_cases h2 : 0 ≤ r2 ∧ 0 ≤ c2
  · by_cases heq : r2 = r ∧ c2 = c
    · rw [if_pos heq]
      obtain ⟨rfl, rfl⟩ := heq
      unfold bget
      rw [if_pos h2, List.getElem?_set_self hrlt]
      simp only [Option.some_bind]
      rw [List.getElem?_set_self (by rw [hrowlen]; omega)]
      rfl
    · rw [if_neg heq]
      by_cases hr2 : r2 = r
      · subst hr2
        have hc2 : c2 ≠ c := fun hh => heq ⟨rfl, hh⟩
        unfold bget
        rw [if_pos h2, if_pos h2, List.getElem?_set_self hrlt, hrow]
        simp only [Option.some_bind]
        rw [List.getElem?_set_ne (by omega)]
      · unfold bget
        rw [if_pos h2, if_pos h2, List.getElem?_set_ne (by omega)]
  · have hne : ¬(r2 = r ∧ c2 = c) := by
      rintro ⟨rfl, rfl⟩
      exact h2 ⟨h0r, h0c⟩
    rw [if_neg hne]
    unfold bget
    rw [if_neg h2, if_neg h2]

theorem applyMove_WF {b : Board} (hWF : Board.WF b) (fr fc tr tc : Int) :
    Board.WF (applyMove b fr fc tr tc).1 :=
  bset_WF (bset_WF hWF tr tc (bget b fr fc)) fr fc none

/-- The pointwise description of a board after `applyMove`. -/
theorem bget_applyMove {b : Board} (hWF : Board.WF b) {fr fc tr tc : Int}
    (hfr : inBounds fr fc = true) (htr : inBounds tr tc = true)
    (r2 c2 : Int) :
    bget (applyMove b fr fc tr tc).1 r2 c2 =
      if r2 = fr ∧ c2 = fc then none
      else if r2 = tr ∧ c2 = tc then bget b fr fc
      else bget b r2 c2 := by
  unfold applyMove
  rw [bget_bset (bset_WF hWF tr tc (bget b fr fc)) hfr,
    bget_bset hWF htr]

/-- Split two distinct members off a duplicate-free list, up to
permutation. -/
theorem perm_two_split {α : Type} [DecidableEq α] {l : List α} {x y : α}
    (hnd : l.Nodup) (hx : x ∈ l) (hy : y ∈ l) (hxy : x ≠ y) :
    ∃ rest, l.Perm (x :: y :: rest) ∧ ∀ a ∈ rest, a ≠ x ∧ a ≠ y := by
  have h1 := List.perm_cons_erase hx
  have hnd1 : (x :: l.erase x).Nodup := h1.nodup hnd
  have hyx : y ∈ l.erase x := by
    rcases List.mem_cons.mp (h1.mem_iff.mp hy) with h | h
    · exact absurd h.symm hxy
    · exact h
  have h2 := List.perm_cons_erase hyx
  have hnd2 : (y :: (l.erase x).erase y).Nodup :=
    h2.nodup (List.nodup_cons.mp hnd1).2
  refine ⟨(l.erase x).erase y, h1.trans (List.Perm.cons x h2), ?_⟩
  intro a ha
  constructor
  · rintro rfl
    exact (List.nodup_cons.mp hnd1).1 (List.mem_of_mem_erase ha)
  · rintro rfl
    exact (List.nodup_cons.mp hnd2).1 ha

/-- Moving a piece never increases a side's king count: the moved piece
leaves its source, and the destination's occupant is removed. -/
theorem kingCount_applyMove_le {b : Board} (hWF : Board.WF b)
    {fr fc tr tc : Int} (hfr : inBounds fr fc = true)
    (htr : inBounds tr tc = true) (s : Side) :
    kingCount (applyMove b fr fc tr tc).1 s ≤ kingCount b s := by
  have hpt : ∀ rc : Int × Int,
      isKingCell (applyMove b fr fc tr tc).1 s rc =
        if rc = (fr, fc) then false
        else if rc = (tr, tc) then isKingCell b s (fr, fc)
        else isKingCell b s rc := by
    intro rc
    unfold isKingCell
    rw [bget_applyMove hWF hfr htr]
    by_cases h1 : rc.1 = fr ∧ rc.2 = fc
    · rw [if_pos h1, if_pos (Prod.ext h1.1 h1.2)]
      rfl
    · rw [if_neg h1, if_neg (fun hh => h1 ⟨congrArg Prod.fst hh,
        congrArg Prod.snd hh⟩)]
      by_cases h2 : rc.1 = tr ∧ rc.2 = tc
      · rw [if_pos h2, if_pos (Prod.ext h2.1 h2.2)]
      · rw [if_neg h2, if_neg (fun hh => h2 ⟨congrArg Prod.fst hh,
          congrArg Prod.snd hh⟩)]
  by_cases hft : (fr, fc) = (tr, tc)
  · -- source and destination coincide: the piece is simply erased
    refine List.countP_mono_left fun rc _ h => ?_
    rw [hpt rc] at h
    by_cases h1 : rc = (fr, fc)
    · rw [if_pos h1] at h
      exact Bool.noConfusion h
    · rw [if_neg h1, if_neg (fun hh => h1 (hh.trans hft.symm))] at h
      exact h
  · -- distinct cells: count them apart from the rest
    have hmf : (fr, fc) ∈ allCells := (mem_allCells _).mpr hfr
    have hmt : (tr, tc) ∈ allCells := (mem_allCells _).mpr htr
    obtain ⟨rest, hperm, hrest⟩ :=
      perm_two_split allCells_nodup hmf hmt hft
    rw [kingCount, kingCount, hperm.countP_eq, hperm.countP_eq,
      List.countP_cons, List.countP_cons, List.countP_cons,
      List.countP_cons]
    have hc1 : List.countP (isKingCell (applyMove b fr fc tr tc).1 s)
        rest = List.countP (isKingCell b s) rest := by
      refine List.countP_congr fun rc hrc => ?_
      obtain ⟨hne1, hne2⟩ := hrest rc hrc
      rw [hpt rc, if_neg hne1, if_neg hne2]
    rw [hc1]
    have hv1 : isKingCell (applyMove b fr fc tr tc).1 s (fr, fc) = false := by
      rw [hpt _, if_pos rfl]
    have hv2 : isKingCell (applyMove b fr fc tr tc).1 s (tr, tc) =
        isKingCell b s (fr, fc) := by
      rw [hpt _, if_neg (fun hh => hft hh.symm), if_pos rfl]
    rw [hv1, hv2]
    by_cases k1 : isKingCell b s (fr, fc) = true <;>
      by_cases k2 : isKingCell b s (tr, tc) = true <;>
        simp [k1, k2] <;> omega

/-! ## The bot's own scans agree with the rules engine's (claim C6) -/

/-- A guarded `findSome?` is a `find?`. -/
theorem findSome?_guard_eq {α β : Type} {f : α → Option β}
    {p : α → Bool} {g : α → β}
    (hf : ∀ a, f a = if p a then some (g a) else none) :
    ∀ l : List α, l.findSome? f = (l.find? p).map g := by
  intro l
  induction l with
  | nil => rfl
  | cons a l ih =>
    rw [List.findSome?_cons, hf a]
    by_cases hp : p a = true
    · rw [if_pos hp, List.find?_cons_of_pos _ hp]
      rfl
    · rw [if_neg hp, List.find?_cons_of_neg _ hp]
      exact ih

/-- `findKing` as a plain first-match search. -/
theorem findKing_eq (b : Board) (side : Side) :
    findKing b side = (allCells.find? (isKingCell b side)).map
      fun rc => (⟨rc.1, rc.2⟩ : Pos) := by
  unfold findKing
  refine findSome?_guard_eq (fun rc => ?_) allCells
  unfold isKingCell isKingOpt
  rcases bget b rc.1 rc.2 with _ | p
  · rfl
  · by_cases hc : p.type = PieceType.king ∧ p.side = side
    · simp [hc]
    · simp [hc]

/-- With no matches, a keep-last fold returns its accumulator. -/
theorem foldl_keepLast_nil {α β : Type} (p : α → Bool) (g : α → β) :
    ∀ (l : List α) (acc : Option β), l.countP p = 0 →
      l.foldl (fun acc a => if p a then some (g a) else acc) acc = acc := by
  intro l
  induction l with
  | nil => intro acc _; rfl
  | cons a l ih =>
    intro acc hc
    rw [List.countP_cons] at hc
    by_cases hp : p a = true
    · rw [if_pos hp] at hc
      omega
    · rw [List.foldl_cons, if_neg hp]
      exact ih acc (by omega)

/-- With at most one match, the keep-last fold of the JS king scan is
the first-match search. -/
theorem foldl_keepLast_eq_find? {α β : Type} (p : α → Bool) (g : α → β) :
    ∀ l : List α, l.countP p ≤ 1 →
      l.foldl (fun acc a => if p a then some (g a) else acc) none =
        (l.find? p).map g := by
  intro l
  induction l with
  | nil => intro _; rfl
  | cons a l ih =>
    intro hc
    rw [List.countP_cons] at hc
    rw [List.foldl_cons]
    by_cases hp : p a = true
    · rw [if_pos hp] at hc
      rw [if_pos hp, List.find?_cons_of_pos _ hp,
        foldl_keepLast_nil p g l (some (g a)) (by omega)]
      rfl
    · rw [if_neg hp] at hc
      rw [if_neg hp, List.find?_cons_of_neg _ hp]
      exact ih (by omega)

/-- The bot's single-pass two-king scan decomposes into one keep-last
fold per side. -/
theorem aiKingScan_eq (b : Board) :
    ∀ (l : List (Int × Int)) (x y : Option Pos),
      (l.foldl (fun acc rc =>
        match bget b rc.1 rc.2 with
        | some p =>
          if p.type = PieceType.king then
            match p.side with
            | Side.red => (some (⟨rc.1, rc.2⟩ : Pos), acc.2)
            | Side.black => (acc.1, some (⟨rc.1, rc.2⟩ : Pos))
          else acc
        | none => acc) (x, y)) =
      (l.foldl (fun acc rc => if isKingCell b Side.red rc then
          some (⟨rc.1, rc.2⟩ : Pos) else acc) x,
        l.foldl (fun acc rc => if isKingCell b Side.black rc then
          some (⟨rc.1, rc.2⟩ : Pos) else acc) y) := by
  intro l
  induction l with
  | nil => intro x y; rfl
  | cons a l ih =>
    intro x y
    rw [List.foldl_cons, List.foldl_cons, List.foldl_cons]
    have hstep : ∀ (x y : Option Pos),
        (match bget b a.1 a.2 with
          | some p =>
            if p.type = PieceType.king then
              match p.side with
              | Side.red => (some (⟨a.1, a.2⟩ : Pos), (x, y).2)
              | Side.black => ((x, y).1, some (⟨a.1, a.2⟩ : Pos))
            else (x, y)
          | none => (x, y)) =
        ((if isKingCell b Side.red a then some (⟨a.1, a.2⟩ : Pos) else x),
          (if isKingCell b Side.black a then some (⟨a.1, a.2⟩ : Pos)
            else y)) := by
      intro x y
      unfold isKingCell isKingOpt
      rcases bget b a.1 a.2 with _ | p
      · rfl
      · rcases p with ⟨pt, ps⟩
        by_cases hk : pt = PieceType.king
        · subst hk
          cases ps <;> simp
        · simp [hk]
    rw [hstep x y]
    exact ih _ _

/-- The bot's board mutation is the rules engine's. -/
theorem aiApplyMove_eq (b : Board) (fr fc tr tc : Int) :
    AI.applyMove b fr fc tr tc = (applyMove b fr fc tr tc).1 := rfl

/-- The bot's own check test is the rules engine's: both take the first
king in row-major order and scan all opposing pieces. -/
theorem aiIsInCheck_eq (b : Board) (s : Side) :
    AI.isInCheck b s = isInCheck b s := rfl

/-- On a board with at most one king per side (the game invariant), the
bot's flying-general test agrees with the rules engine's: the two
differ only in keeping the last rather than the first king of a
duplicated side. -/
theorem aiIsFlyingGeneral_eq {b : Board}
    (h1 : kingCount b Side.red ≤ 1) (h2 : kingCount b Side.black ≤ 1) :
    AI.isFlyingGeneral b = isFlyingGeneral b := by
  simp only [AI.isFlyingGeneral, isFlyingGeneral]
  rw [aiKingScan_eq b allCells none none,
    foldl_keepLast_eq_find? (isKingCell b Side.red) _ allCells h1,
    foldl_keepLast_eq_find? (isKingCell b Side.black) _ allCells h2,
    ← findKing_eq, ← findKing_eq]

/-- A guarded `filterMap` is a `filter` followed by a `map`. -/
theorem filterMap_guard_eq_map_filter {α β : Type} (C : α → Prop)
    [DecidablePred C] (g : α → β) :
    ∀ l : List α,
      (l.filterMap fun a => if C a then some (g a) else none) =
        (l.filter fun a => decide (C a)).map g := by
  intro l
  induction l with
  | nil => rfl
  | cons a l ih =>
    by_cases hc : C a
    · simp [List.filterMap_cons, List.filter_cons, hc, ih]
    · simp [List.filterMap_cons, List.filter_cons, hc, ih]

/-- With the repeat-check gate off, the legality filter's predicate is
just the safety test the bot applies. -/
theorem safetyFilter_eq {A1 A2 B D M : Bool} (hM : M = false) :
    decide (¬A1 = true ∧ ¬A2 = true) =
      (if (A1 || A2) = true then false
       else if (M && B) = true then D else true) := by
  subst hM
  cases A1 <;> cases A2 <;> simp

/-- The bot's per-board move generation (before its capture-first sort)
coincides with the Legality Filter's full output whenever the board has
at most one king per side and the moving side's check streak is below
the repeat-check threshold. -/
theorem ai_unsorted_moves_eq (g : Game) (s : Side)
    (hWF : Board.WF g.board)
    (h1 : kingCount g.board Side.red ≤ 1)
    (h2 : kingCount g.board Side.black ≤ 1)
    (hcc : g.consecutiveChecks.get s < 3) :
    (allCells.flatMap fun rc =>
      match bget g.board rc.1 rc.2 with
      | some p =>
        if p.side = s then
          (getPieceMoves g.board rc.1 rc.2).filterMap fun m =>
            if ¬AI.isInCheck
                  (AI.applyMove g.board rc.1 rc.2 m.row m.col) s ∧
                ¬AI.isFlyingGeneral
                  (AI.applyMove g.board rc.1 rc.2 m.row m.col) then
              some (⟨rc.1, rc.2, m.row, m.col⟩ : Move)
            else none
        else []
      | none => []) = g.getAllLegalMoves s := by
  unfold Game.getAllLegalMoves
  refine List.flatMap_congr fun rc hrc => ?_
  have hin : inBounds rc.1 rc.2 = true := (mem_allCells rc).mp hrc
  rcases hbp : bget g.board rc.1 rc.2 with _ | p
  · rfl
  · by_cases hps : p.side = s
    · simp only [hps, if_pos, Game.getLegalMoves, hbp]
      rw [filterMap_guard_eq_map_filter]
      refine congrArg (List.map _) (List.filter_congr fun m hm => ?_)
      have hmb : inBounds m.row m.col = true :=
        (getPieceMoves_ok hbp hin m hm).1
      have hk1 : kingCount (applyMove g.board rc.1 rc.2 m.row m.col).1
          Side.red ≤ 1 :=
        le_trans (kingCount_applyMove_le hWF hin hmb Side.red) h1
      have hk2 : kingCount (applyMove g.board rc.1 rc.2 m.row m.col).1
          Side.black ≤ 1 :=
        le_trans (kingCount_applyMove_le hWF hin hmb Side.black) h2
      rw [aiApplyMove_eq, aiIsInCheck_eq, aiIsFlyingGeneral_eq hk1 hk2]
      exact safetyFilter_eq (decide_eq_false (by omega))
    · simp [hps]

/-- Claim C6, amended: on a board with at most one king per side, and
whenever the moving side's `consecutiveChecks` is below the
repeat-check threshold, the candidate set the bot's recursive move
generator `getAllMovesForBoard` considers equals the Legality Filter's
output for that board, side and game state (the bot's capture-first
sort permutes but never changes the set).  With the threshold reached,
the bot bypasses the repeat-check restriction, see the counterexample. -/
theorem ai_moves_match_legality_filter (g : Game) (s : Side)
    (hWF : Board.WF g.board)
    (h1 : kingCount g.board Side.red ≤ 1)
    (h2 : kingCount g.board Side.black ≤ 1)
    (hcc : g.consecutiveChecks.get s < 3) :
    ∀ mv : Move, mv ∈ AI.getAllMovesForBoard g.board s g ↔
      mv ∈ g.getAllLegalMoves s := by
  intro mv
  simp only [AI.getAllMovesForBoard]
  rw [List.mem_mergeSort, ai_unsorted_moves_eq g s hWF h1 h2 hcc]

theorem ai_moves_match_legality_filter_witness :
    Board.WF demoGame.board ∧ kingCount demoGame.board Side.red ≤ 1 ∧
      kingCount demoGame.board Side.black ≤ 1 ∧
      demoGame.consecutiveChecks.get Side.red < 3 ∧
      ∀ mv : Move, mv ∈ AI.getAllMovesForBoard demoGame.board Side.red
          demoGame ↔ mv ∈ demoGame.getAllLegalMoves Side.red :=
  ⟨by decide, by decide, by decide, by decide,
    ai_moves_match_legality_filter demoGame Side.red (by decide)
      (by decide) (by decide) (by decide)⟩

set_option maxRecDepth 40000 in
/-- Claim C6 counterexample: in `g6` red's check streak is 3 and the
chariot check `(1,0) → (0,0)` repeats a recorded pattern, so the
Legality Filter excludes it — but the bot's recursive-node generator
`getAllMovesForBoard` still considers it: the bot's candidate set is
not the filter's set at that node. -/
theorem ai_bypasses_repeat_check_rule_counterexample :
    (⟨1, 0, 0, 0⟩ : Move) ∈
        AI.getAllMovesForBoard g6.board Side.red g6 ∧
      (⟨1, 0, 0, 0⟩ : Move) ∉ g6.getAllLegalMoves Side.red :=
  ⟨by simp only [AI.getAllMovesForBoard]
      rw [List.mem_mergeSort]
      decide,
    by decide⟩
